import Mathlib

/-!
Verification of the bucket-drain worker of the video-search repository: its
request classification, paginated enumeration and batched deletion algorithm,
execution-budget governor and completion-reporting protocol. The worker itself
ships as inline Lambda code inside a CloudFormation template that is not part
of the checked-in sources; the definitions below are therefore modelled from
the design specification and the in-repo implementation document
(the `EmptyBucketFunction` description), which fix the data model, the control
flow of `lambda_handler` and `empty_bucket`, and the failure taxonomy.
-/

namespace BucketDrain

/-- Intent of the inbound lifecycle event (the CloudFormation RequestType). -/
inductive Intent
  | create
  | update
  | delete
deriving DecidableEq, Repr

/-- Outcome of request classification: either the no-op path or the drain path. -/
inductive Route
  | skip
  | drain
deriving DecidableEq, Repr

/-- Kind of a deletable entry in the object store. -/
inductive EntryKind
  | objectVersion
  | deleteMarker
  | plainObject
deriving DecidableEq, Repr

/-- One deletable unit: a key, an optional version identifier, and its kind. -/
structure Entry where
  key : String
  versionId : Option String
  kind : EntryKind
deriving DecidableEq, Repr

/-- Terminal status carried by a CompletionSignal. -/
inductive Status
  | success
  | failed
deriving DecidableEq, Repr

/-- The per-invocation request: target container, intent and correlation id. -/
structure DrainRequest where
  target : String
  intent : Intent
  corrId : String
deriving DecidableEq, Repr

/-- The single terminal message sent back to the orchestrator. -/
structure CompletionSignal where
  corrId : String
  target : String
  status : Status
  reason : String
deriving DecidableEq, Repr

/-- Model of the target container held by the object-store gateway:
whether it exists, its versioned entries (object versions and delete
markers, enumerated by Phase A) and its plain objects (Phase B). -/
structure Bucket where
  present : Bool
  versioned : List Entry
  plain : List Entry
deriving DecidableEq, Repr

/-- The gateway's maximum bulk-delete batch size. -/
def maxBatchSize : Nat := 1000

/-- Fuel-indexed worker for `chunksPos`: structural recursion on the fuel
keeps the definition kernel-computable. The fuel never runs out when it
starts at the list's length, because each step consumes at least one
element. -/
def chunksF (n : Nat) : Nat → List α → List (List α)
  | _, [] => []
  | 0, _ :: _ => []
  | fuel + 1, x :: xs =>
    ((x :: xs).take (n + 1)) :: chunksF n fuel ((x :: xs).drop (n + 1))

/-- Chunk a list into consecutive pieces of size `n + 1` (the successor
argument keeps the chunk size positive). This is the shape shared by the
gateway's paginated listing and by the batch deleter's grouping into
bounded delete batches. -/
def chunksPos (n : Nat) (xs : List α) : List (List α) :=
  chunksF n xs.length xs


/-- Fault-injection model for the gateway's per-key delete behaviour:
a key either deletes cleanly, is permission-denied (deterministic), or is
transiently throttled and fails its first `failCount` attempts. -/
inductive KeyFault
  | ok
  | permissionDenied
  | transient (failCount : Nat)
deriving DecidableEq, Repr

/-- Whether a bulk delete of this key succeeds on the given 0-based attempt. -/
def attemptSucceeds (f : KeyFault) (attempt : Nat) : Bool :=
  match f with
  | .ok => true
  | .permissionDenied => false
  | .transient n => decide (n ≤ attempt)

/-- Whether the fault is a deterministic permission denial. -/
def isDenied (f : KeyFault) : Bool :=
  match f with
  | .permissionDenied => true
  | _ => false

/-- Whether the key is still transiently failing on this attempt
(retry candidate). -/
def isTransientPending (f : KeyFault) (attempt : Nat) : Bool :=
  match f with
  | .transient n => decide (attempt < n)
  | _ => false

/-- Modelled from the spec: retries are "capped at a small fixed number of
attempts per batch". -/
def maxDeleteAttempts : Nat := 3

/-- Base delay unit for exponential backoff between retry attempts. -/
def backoffBase : Nat := 1

/-- Exponential backoff: the delay before retry `attempt + 1` doubles with
each attempt. -/
def backoffDelay (attempt : Nat) : Nat := backoffBase * 2 ^ attempt

/-- Aggregated outcome of one DeleteBatch, retries included: the deleted
entries, the per-key failures with reasons, the keys issued on each gateway
attempt (for auditing the retry policy), and the backoff delays slept
between attempts. -/
structure BatchOutcome where
  succeeded : List Entry
  failed : List (Entry × String)
  attempts : List (List Entry)
  delays : List Nat
deriving DecidableEq, Repr

/-- Reason string recorded for a key denied by permissions. -/
def deniedReason : String := "permission denied"

/-- Reason string recorded for a key whose transient failures outlived the
retry cap. -/
def exhaustedReason : String := "transient error: retries exhausted"

/-- One bulk-delete call with bounded retries, modelled from the spec:
each attempt partitions the issued keys into succeeded, permission-denied
(recorded immediately, never retried) and transiently-failing (retried).
`left` is the number of attempts still allowed, `i` the 0-based index of the
current attempt; when the attempt budget runs out the still-unresolved keys
are recorded as failures. -/
def delete_batch_retry (faults : String → KeyFault) :
    Nat → Nat → List Entry → BatchOutcome
  | 0, _, batch =>
    { succeeded := []
      failed := batch.map (fun e => (e, exhaustedReason))
      attempts := []
      delays := [] }
  | left + 1, i, batch =>
    let succ := batch.filter (fun e => attemptSucceeds (faults e.key) i)
    let denied := batch.filter (fun e => isDenied (faults e.key))
    let pending := batch.filter (fun e => isTransientPending (faults e.key) i)
    if pending.isEmpty then
      { succeeded := succ
        failed := denied.map (fun e => (e, deniedReason))
        attempts := [batch]
        delays := [] }
    else
      let rest := delete_batch_retry faults left (i + 1) pending
      { succeeded := succ ++ rest.succeeded
        failed := denied.map (fun e => (e, deniedReason)) ++ rest.failed
        attempts := batch :: rest.attempts
        delays := (if rest.attempts.isEmpty then [] else [backoffDelay i])
          ++ rest.delays }

/-- The batch deleter's single entry point: issue one DeleteBatch with the
standard retry cap. -/
def run_delete_batch (faults : String → KeyFault) (batch : List Entry) :
    BatchOutcome :=
  delete_batch_retry faults maxDeleteAttempts 0 batch

/-- Modelled from the spec: the Execution Budget Governor tracks elapsed
wall-clock time against the invocation's hard deadline. Time is abstracted
to discrete cost units: `deadline` is the total budget, `margin` the safety
margin reserved for the Completion Reporter, `batchCost` the governor's
per-batch cost estimate. -/
structure Budget where
  deadline : Nat
  margin : Nat
  batchCost : Nat
deriving DecidableEq, Repr

/-- `should_continue`: start a new batch only if its projected completion
leaves the safety margin before the deadline. -/
def should_continue (b : Budget) (elapsed : Nat) : Bool :=
  decide (elapsed + b.batchCost + b.margin ≤ b.deadline)

/-- The number of further batches the governor will permit from a given
elapsed time (for a positive per-batch cost). -/
def permitted (b : Budget) (elapsed : Nat) : Nat :=
  (b.deadline - b.margin - elapsed) / b.batchCost

/-- The two enumeration phases: Phase A lists object versions and delete
markers, Phase B lists plain objects. -/
inductive Phase
  | phaseA
  | phaseB
deriving DecidableEq, Repr

/-- Observable events of a drain run, in order: a phase being entered, and
each DeleteBatch issued within a phase. -/
inductive Event
  | phaseStart (p : Phase)
  | batch (p : Phase) (entries : List Entry)
deriving DecidableEq, Repr

/-- Result of running one phase's batches under the governor. -/
structure PhaseResult where
  deletedEntries : List Entry
  failed : List (Entry × String)
  remaining : List Entry
  events : List Event
  elapsed : Nat
  batchesDone : Nat
  exhausted : Bool
  gatewayCalls : Nat
deriving DecidableEq, Repr

/-- Run the batches of one phase in order. Before each batch the governor
is consulted; on refusal the run halts with `exhausted := true`, leaving
the unprocessed entries in `remaining` (a fresh invocation re-enumerates
them). Entries whose delete failed also stay in `remaining`. -/
def run_batches (faults : String → KeyFault) (b : Budget) (p : Phase) :
    Nat → Nat → List (List Entry) → PhaseResult
  | elapsed, done, [] =>
    { deletedEntries := []
      failed := []
      remaining := []
      events := []
      elapsed := elapsed
      batchesDone := done
      exhausted := false
      gatewayCalls := 0 }
  | elapsed, done, batch :: rest =>
    if should_continue b elapsed then
      let o := run_delete_batch faults batch
      let r := run_batches faults b p (elapsed + b.batchCost) (done + 1) rest
      { deletedEntries := o.succeeded ++ r.deletedEntries
        failed := o.failed ++ r.failed
        remaining := o.failed.map Prod.fst ++ r.remaining
        events := .batch p batch :: r.events
        elapsed := r.elapsed
        batchesDone := r.batchesDone
        exhausted := r.exhausted
        gatewayCalls := o.attempts.length + r.gatewayCalls }
    else
      { deletedEntries := []
        failed := []
        remaining := (batch :: rest).flatten
        events := []
        elapsed := elapsed
        batchesDone := done
        exhausted := true
        gatewayCalls := 0 }

/-- Aggregate DrainResult: terminal status, deletion counts, accumulated
failures, reason string, event trace and gateway-call count. -/
structure DrainResult where
  status : Status
  deletedCount : Nat
  deletedEntries : List Entry
  failures : List (Entry × String)
  reason : String
  events : List Event
  gatewayCalls : Nat
  batchesDone : Nat
deriving DecidableEq, Repr

/-- Reason reported when the governor halts the drain before completion. -/
def incompleteReason : String := "incomplete: budget exhausted"

/-- Reason reported for a fully successful drain. -/
def emptiedReason : String := "successfully emptied bucket"

/-- Reason reported when the target was already absent. -/
def absentReason : String := "bucket does not exist, skipping"

/-- Reason reported when some keys could not be deleted: cites the number
of failures. -/
def failureReason (count : Nat) : String :=
  toString count ++ " entries could not be deleted"

/-- Modelled from the spec: `empty_bucket` — the drain algorithm of the
inline Lambda, whose Python source is absent from the tree. If the target
does not exist at the very first Phase A page, the whole drain
short-circuits to success. Otherwise Phase A enumerates and deletes the
versioned entries page by page, then Phase B runs unconditionally over the
plain objects, both under the budget governor; failures accumulate rather
than aborting, and a governor halt reports the incomplete reason. Returns
the DrainResult together with the bucket state after the run. -/
def empty_bucket (faults : String → KeyFault) (b : Budget) (bucket : Bucket) :
    DrainResult × Bucket :=
  if bucket.present then
    let pagesA := chunksPos (maxBatchSize - 1) bucket.versioned
    let ra := run_batches faults b .phaseA 0 0 pagesA
    if ra.exhausted then
      ({ status := .failed
         deletedCount := ra.deletedEntries.length
         deletedEntries := ra.deletedEntries
         failures := ra.failed
         reason := incompleteReason
         events := Event.phaseStart .phaseA :: ra.events
         gatewayCalls := ra.gatewayCalls
         batchesDone := ra.batchesDone },
       { bucket with versioned := ra.remaining })
    else
      let pagesB := chunksPos (maxBatchSize - 1) bucket.plain
      let rb := run_batches faults b .phaseB ra.elapsed ra.batchesDone pagesB
      let deleted := ra.deletedEntries ++ rb.deletedEntries
      let fails := ra.failed ++ rb.failed
      let status : Status :=
        if rb.exhausted then .failed
        else if fails.isEmpty then .success else .failed
      let reason : String :=
        if rb.exhausted then incompleteReason
        else if fails.isEmpty then emptiedReason else failureReason fails.length
      ({ status := status
         deletedCount := deleted.length
         deletedEntries := deleted
         failures := fails
         reason := reason
         events := Event.phaseStart .phaseA :: ra.events
           ++ Event.phaseStart .phaseB :: rb.events
         gatewayCalls := ra.gatewayCalls + rb.gatewayCalls
         batchesDone := rb.batchesDone },
       { bucket with versioned := ra.remaining, plain := rb.remaining })
  else
    ({ status := .success
       deletedCount := 0
       deletedEntries := []
       failures := []
       reason := absentReason
       events := []
       gatewayCalls := 1
       batchesDone := 0 }, bucket)

/-- Modelled from the spec: the Request Classifier. A pure, total function
of the intent: `Delete` routes to the drain path, `Create` and `Update` to
the no-op path. -/
def classify (i : Intent) : Route :=
  match i with
  | .delete => .drain
  | .create => .skip
  | .update => .skip

/-- Observable output of one worker invocation: the CompletionSignals sent
to the orchestrator, the number of object-store gateway calls made, the
DrainResult when the drain path ran, and the bucket state afterwards. -/
structure HandlerOutput where
  signals : List CompletionSignal
  gatewayCalls : Nat
  result : Option DrainResult
  finalBucket : Bucket
deriving Repr

/-- Modelled from the spec: the drain path may raise an unexpected internal
fault before completing; `internalFault = some msg` injects such a fault. -/
def run_drain (internalFault : Option String) (faults : String → KeyFault)
    (b : Budget) (bucket : Bucket) : Except String (DrainResult × Bucket) :=
  match internalFault with
  | some msg => .error msg
  | none => .ok (empty_bucket faults b bucket)

/-- Reason echoed for the no-op path on Create and Update intents. -/
def noActionReason : String := "no action"

/-- Modelled from the spec: `lambda_handler` — the invocation entry point,
whose Python source is absent from the tree. It classifies the request;
the skip path immediately reports SUCCESS with no gateway call; the drain
path runs `empty_bucket` wrapped so that even an unexpected internal fault
is caught and converted into a FAILED signal. On every exit path exactly
one CompletionSignal, echoing the request's correlation id and target, is
appended to `signals`. -/
def lambda_handler (req : DrainRequest) (internalFault : Option String)
    (faults : String → KeyFault) (b : Budget) (bucket : Bucket) :
    HandlerOutput :=
  match classify req.intent with
  | .skip =>
    { signals := [⟨req.corrId, req.target, .success, noActionReason⟩]
      gatewayCalls := 0
      result := none
      finalBucket := bucket }
  | .drain =>
    match run_drain internalFault faults b bucket with
    | .ok (r, bucket1) =>
      { signals := [⟨req.corrId, req.target, r.status, r.reason⟩]
        gatewayCalls := r.gatewayCalls
        result := some r
        finalBucket := bucket1 }
    | .error msg =>
      { signals := [⟨req.corrId, req.target, .failed, msg⟩]
        gatewayCalls := 0
        result := none
        finalBucket := bucket }

/-- Documented configuration of the `EmptyBucketFunction` Lambda resource
(the CloudFormation template itself is absent from the tree; these values
are modelled from the in-repo implementation document). -/
structure LambdaConfig where
  timeoutSeconds : Nat
  memoryMB : Nat
deriving DecidableEq, Repr

/-- Modelled from the spec: `EmptyBucketFunction` is configured with a
900-second timeout and 256 MB of memory. -/
def emptyBucketFunctionConfig : LambdaConfig :=
  { timeoutSeconds := 900, memoryMB := 256 }

/-- The phase an observable event belongs to. -/
def phaseOf : Event → Phase
  | .phaseStart p => p
  | .batch p _ => p

/-- Whether every phase tag in the list is Phase B. -/
def allB : List Phase → Bool
  | [] => true
  | .phaseA :: _ => false
  | .phaseB :: r => allB r

/-- Whether no Phase A tag follows a Phase B tag: the phases are ordered
and never interleaved. -/
def noAafterB : List Phase → Bool
  | [] => true
  | .phaseA :: r => noAafterB r
  | .phaseB :: r => allB r

/-- A container population of `n` distinct plain objects, keyed by their
decimal index. -/
def mkObjects (n : Nat) : List Entry :=
  (List.range n).map (fun i => ⟨Nat.repr i, none, .plainObject⟩)

/-- Fault assignment for the partial-failure scenario: the keys "3" and
"7" are permission-denied, every other key deletes cleanly. -/
def w7faults : String → KeyFault :=
  fun k => if k = "3" ∨ k = "7" then .permissionDenied else .ok


/-- Any sufficient amount of fuel computes the same chunks. -/
theorem chunksF_congr (n : Nat) :
    ∀ (f1 f2 : Nat) (xs : List α), xs.length ≤ f1 → xs.length ≤ f2 →
      chunksF n f1 xs = chunksF n f2 xs := by
  intro f1
  induction f1 with
  | zero =>
    intro f2 xs h1 h2
    have hx : xs = [] := List.eq_nil_of_length_eq_zero (by omega)
    subst hx
    cases f2 <;> simp [chunksF]
  | succ g1 ih =>
    intro f2 xs h1 h2
    cases xs with
    | nil => cases f2 <;> simp [chunksF]
    | cons x xs =>
      cases f2 with
      | zero => simp at h2
      | succ g2 =>
        simp only [chunksF]
        congr 1
        apply ih
        · simp only [List.length_drop, List.length_cons] at h1 ⊢
          omega
        · simp only [List.length_drop, List.length_cons] at h2 ⊢
          omega

/-- The defining equation of `chunksPos` on a nonempty list. -/
theorem chunksPos_cons (n : Nat) (x : α) (xs : List α) :
    chunksPos n (x :: xs)
      = ((x :: xs).take (n + 1)) :: chunksPos n ((x :: xs).drop (n + 1)) := by
  show chunksF n (xs.length + 1) (x :: xs) = _
  simp only [chunksF]
  congr 1
  apply chunksF_congr
  · simp only [List.length_drop, List.length_cons]
    omega
  · exact le_refl _

/-- Concatenating the chunks restores the original list: the pagination
visits every entry, with no duplicates and no omissions. -/
theorem chunksPos_flatten (n : Nat) (xs : List α) : (chunksPos n xs).flatten = xs := by
  have H : ∀ (m : Nat) (ys : List α), ys.length ≤ m →
      (chunksPos n ys).flatten = ys := by
    intro m
    induction m with
    | zero =>
      intro ys h
      have hy : ys = [] := List.eq_nil_of_length_eq_zero (by omega)
      subst hy
      rfl
    | succ k ih =>
      intro ys h
      cases ys with
      | nil => rfl
      | cons y ys =>
        rw [chunksPos_cons, List.flatten_cons]
        rw [ih _ (by simp only [List.length_drop, List.length_cons] at h ⊢; omega)]
        exact List.take_append_drop _ _
  exact H xs.length xs (le_refl _)

/-- Every chunk is nonempty and has size at most `n + 1`. -/
theorem chunksPos_mem_length (n : Nat) (xs : List α) (c : List α)
    (hc : c ∈ chunksPos n xs) : 0 < c.length ∧ c.length ≤ n + 1 := by
  have H : ∀ (m : Nat) (ys : List α), ys.length ≤ m →
      c ∈ chunksPos n ys → 0 < c.length ∧ c.length ≤ n + 1 := by
    intro m
    induction m with
    | zero =>
      intro ys h hm
      have hy : ys = [] := List.eq_nil_of_length_eq_zero (by omega)
      subst hy
      simp [chunksPos, chunksF] at hm
    | succ k ih =>
      intro ys h hm
      cases ys with
      | nil => simp [chunksPos, chunksF] at hm
      | cons y ys =>
        rw [chunksPos_cons, List.mem_cons] at hm
        rcases hm with rfl | hm
        · constructor
          · simp [List.length_take]
          · simp [List.length_take]
        · exact ih _ (by simp only [List.length_drop, List.length_cons] at h ⊢; omega) hm
  exact H xs.length xs (le_refl _) hc

/-- The number of chunks is the length of the list divided by the chunk
size, rounded up. -/
theorem chunksPos_length (n : Nat) (xs : List α) :
    (chunksPos n xs).length = (xs.length + n) / (n + 1) := by
  have H : ∀ (m : Nat) (ys : List α), ys.length ≤ m →
      (chunksPos n ys).length = (ys.length + n) / (n + 1) := by
    intro m
    induction m with
    | zero =>
      intro ys h
      have hy : ys = [] := List.eq_nil_of_length_eq_zero (by omega)
      subst hy
      simp [chunksPos, chunksF, Nat.div_eq_of_lt]
    | succ k ih =>
      intro ys h
      cases ys with
      | nil => simp [chunksPos, chunksF, Nat.div_eq_of_lt]
      | cons y ys =>
        rw [chunksPos_cons, List.length_cons,
          ih _ (by simp only [List.length_drop, List.length_cons] at h ⊢; omega)]
        simp only [List.length_drop, List.length_cons]
        rcases le_or_lt (n + 1) (ys.length + 1) with hle | hlt
        · have he : ys.length + 1 - (n + 1) + n + (n + 1) = ys.length + 1 + n := by
            omega
          rw [← he, Nat.add_div_right _ (Nat.succ_pos n)]
        · have h0 : ys.length + 1 - (n + 1) = 0 := by omega
          rw [h0, Nat.zero_add]
          have h1 : n / (n + 1) = 0 := Nat.div_eq_of_lt (by omega)
          have h2 : (ys.length + 1 + n) / (n + 1) = 1 := by
            apply Nat.div_eq_of_lt_le
            · omega
            · omega
          omega
  exact H xs.length xs (le_refl _)

/-! Lemmas about the batch deleter's retry loop. -/

/-- The retry loop makes at most `left` gateway attempts. -/
theorem delete_batch_retry_attempts_le (faults : String → KeyFault)
    (left i : Nat) (batch : List Entry) :
    (delete_batch_retry faults left i batch).attempts.length ≤ left := by
  induction left generalizing i batch with
  | zero => simp [delete_batch_retry]
  | succ k ih =>
    simp only [delete_batch_retry]
    split
    · simp
    · simpa using ih (i + 1) _

/-- The delays slept between attempts follow the exponential backoff
schedule, starting at the index of the first attempt. -/
theorem delete_batch_retry_delays (faults : String → KeyFault)
    (left i : Nat) (batch : List Entry) :
    (delete_batch_retry faults left i batch).delays
      = (List.range ((delete_batch_retry faults left i batch).attempts.length - 1)).map
          (fun j => backoffDelay (i + j)) := by
  induction left generalizing i batch with
  | zero => simp [delete_batch_retry]
  | succ k ih =>
    simp only [delete_batch_retry]
    split
    · simp
    · simp only [List.length_cons, Nat.add_sub_cancel]
      cases hra : (delete_batch_retry faults k (i + 1)
          (batch.filter fun e => isTransientPending (faults e.key) i)).attempts with
      | nil =>
        have hd := ih (i + 1)
          (batch.filter fun e => isTransientPending (faults e.key) i)
        rw [hra] at hd
        simp only [hra, List.isEmpty_nil, if_pos, List.length_nil, List.nil_append]
        simpa using hd
      | cons a as =>
        have hd := ih (i + 1)
          (batch.filter fun e => isTransientPending (faults e.key) i)
        rw [hra] at hd
        simp only [hra, List.isEmpty_cons, List.length_cons]
        rw [hd, List.range_succ_eq_map]
        simp only [Bool.false_eq_true, if_false, List.map_cons, List.map_map,
          Nat.add_zero, List.singleton_append, List.length_cons, Nat.add_sub_cancel]
        congr 1
        apply List.map_congr_left
        intro j _
        simp only [Function.comp_apply]
        congr 1
        omega

/-- Every set of keys issued on some attempt is a subset of the original
batch. -/
theorem delete_batch_retry_attempts_subset (faults : String → KeyFault)
    (left i : Nat) (batch : List Entry) :
    ∀ a ∈ (delete_batch_retry faults left i batch).attempts, a ⊆ batch := by
  induction left generalizing i batch with
  | zero => simp [delete_batch_retry]
  | succ k ih =>
    simp only [delete_batch_retry]
    split
    · intro a ha
      simp only [List.mem_singleton] at ha
      subst ha
      exact fun x hx => hx
    · intro a ha
      simp only [List.mem_cons] at ha
      rcases ha with rfl | ha
      · exact fun x hx => hx
      · intro x hx
        exact List.mem_of_mem_filter (ih (i + 1) _ a ha hx)

/-- A permission-denied key is recorded as a terminal failure and is issued
to the gateway exactly once: it is never retried. -/
theorem delete_batch_retry_denied (faults : String → KeyFault)
    (left i : Nat) (batch : List Entry) (e : Entry)
    (he : e ∈ batch) (hd : isDenied (faults e.key) = true) (hleft : 0 < left) :
    (e, deniedReason) ∈ (delete_batch_retry faults left i batch).failed ∧
    (delete_batch_retry faults left i batch).attempts.countP
      (fun a => decide (e ∈ a)) = 1 := by
  cases left with
  | zero => omega
  | succ k =>
    have hfk : faults e.key = .permissionDenied := by
      cases hf : faults e.key <;> simp [isDenied, hf] at hd ⊢
    have hnp : e ∉ batch.filter (fun x => isTransientPending (faults x.key) i) := by
      simp [List.mem_filter, isTransientPending, hfk]
    have hmem : (e, deniedReason)
        ∈ (batch.filter fun x => isDenied (faults x.key)).map
          (fun x => (x, deniedReason)) := by
      simp only [List.mem_map, List.mem_filter]
      exact ⟨e, ⟨he, hd⟩, rfl⟩
    simp only [delete_batch_retry]
    split
    · refine ⟨hmem, ?_⟩
      simp [List.countP_cons, he]
    · constructor
      · exact List.mem_append_left _ hmem
      · have hz : (delete_batch_retry faults k (i + 1)
            (batch.filter fun x => isTransientPending (faults x.key) i)).attempts.countP
            (fun a => decide (e ∈ a)) = 0 := by
          rw [List.countP_eq_zero]
          intro a ha
          simp only [decide_eq_true_eq]
          intro hea
          exact hnp (delete_batch_retry_attempts_subset faults k (i + 1) _ a ha hea)
        simp [List.countP_cons, he, hz]

/-- A key whose transient failures outlive the remaining attempt budget is
recorded as a retries-exhausted failure. -/
theorem delete_batch_retry_exhausted (faults : String → KeyFault)
    (left i : Nat) (batch : List Entry) (e : Entry) (n : Nat)
    (he : e ∈ batch) (hf : faults e.key = .transient n) (hn : i + left ≤ n) :
    (e, exhaustedReason) ∈ (delete_batch_retry faults left i batch).failed := by
  induction left generalizing i batch with
  | zero =>
    simp only [delete_batch_retry, List.mem_map]
    exact ⟨e, he, rfl⟩
  | succ k ih =>
    have hpend : e ∈ batch.filter (fun x => isTransientPending (faults x.key) i) := by
      simp only [List.mem_filter, isTransientPending, hf]
      refine ⟨he, ?_⟩
      simp only [decide_eq_true_eq]
      omega
    have hne : (batch.filter (fun x => isTransientPending (faults x.key) i)).isEmpty
        = false := by
      cases hq : batch.filter (fun x => isTransientPending (faults x.key) i) with
      | nil => rw [hq] at hpend; simp at hpend
      | cons a as => simp
    simp only [delete_batch_retry, hne, Bool.false_eq_true, if_false]
    exact List.mem_append_right _ (ih (i + 1) _ hpend (by omega))

/-- With no transient faults in play (every key either deletes cleanly or
is permission-denied), a DeleteBatch resolves in a single gateway attempt:
the clean keys succeed, the denied keys are recorded, nothing is retried. -/
theorem run_delete_batch_ok_denied (faults : String → KeyFault)
    (batch : List Entry)
    (h : ∀ k, faults k = .ok ∨ faults k = .permissionDenied) :
    run_delete_batch faults batch =
      { succeeded := batch.filter (fun e => !(isDenied (faults e.key)))
        failed := (batch.filter (fun e => isDenied (faults e.key))).map
          (fun e => (e, deniedReason))
        attempts := [batch]
        delays := [] } := by
  have hpend : batch.filter (fun e => isTransientPending (faults e.key) 0) = [] := by
    rw [List.filter_eq_nil_iff]
    intro e _
    rcases h e.key with hk | hk <;> simp [isTransientPending, hk]
  have hsucc : batch.filter (fun e => attemptSucceeds (faults e.key) 0)
      = batch.filter (fun e => !(isDenied (faults e.key))) := by
    apply List.filter_congr
    intro e _
    rcases h e.key with hk | hk <;> simp [attemptSucceeds, isDenied, hk]
  show delete_batch_retry faults (2 + 1) 0 batch = _
  simp only [delete_batch_retry, hpend, List.isEmpty_nil, if_pos, hsucc]

/-! Lemmas about running a phase's batches under the budget governor. -/

/-- Every event emitted while running a phase's batches is a batch event of
that phase. -/
theorem run_batches_events_phase (faults : String → KeyFault) (b : Budget)
    (p : Phase) (bs : List (List Entry)) :
    ∀ elapsed done, ∀ e ∈ (run_batches faults b p elapsed done bs).events,
      ∃ es, e = Event.batch p es := by
  induction bs with
  | nil => intro el dn e he; simp [run_batches] at he
  | cons batch rest ih =>
    intro el dn e he
    simp only [run_batches] at he
    split at he
    · simp only [List.mem_cons] at he
      rcases he with rfl | he
      · exact ⟨batch, rfl⟩
      · exact ih _ _ e he
    · simp at he

/-- Every batch event emitted while running a phase's batches carries one
of the listed batches, unchanged. -/
theorem run_batches_events_mem (faults : String → KeyFault) (b : Budget)
    (p q : Phase) (bs : List (List Entry)) :
    ∀ elapsed done es, Event.batch q es ∈ (run_batches faults b p elapsed done bs).events →
      es ∈ bs ∧ q = p := by
  induction bs with
  | nil => intro el dn es he; simp [run_batches] at he
  | cons batch rest ih =>
    intro el dn es he
    simp only [run_batches] at he
    split at he
    · simp only [List.mem_cons] at he
      rcases he with he | he
      · cases he
        exact ⟨List.mem_cons_self _ _, rfl⟩
      · have := ih _ _ es he
        exact ⟨List.mem_cons_of_mem _ this.1, this.2⟩
    · simp at he

/-- With no transient faults and a budget covering all the batches, the
phase runs to completion without exhaustion: the clean entries of every
batch are deleted, the denied ones accumulate as failures and stay in the
container, and each batch takes exactly one gateway call. -/
theorem run_batches_ok_denied (faults : String → KeyFault) (b : Budget)
    (p : Phase)
    (h : ∀ k, faults k = .ok ∨ faults k = .permissionDenied) :
    ∀ (bs : List (List Entry)) (elapsed done : Nat),
    elapsed + bs.length * b.batchCost + b.margin ≤ b.deadline →
    run_batches faults b p elapsed done bs =
      { deletedEntries := bs.flatten.filter (fun e => !(isDenied (faults e.key)))
        failed := (bs.flatten.filter (fun e => isDenied (faults e.key))).map
          (fun e => (e, deniedReason))
        remaining := bs.flatten.filter (fun e => isDenied (faults e.key))
        events := bs.map (Event.batch p)
        elapsed := elapsed + bs.length * b.batchCost
        batchesDone := done + bs.length
        exhausted := false
        gatewayCalls := bs.length } := by
  intro bs
  induction bs with
  | nil => intro el dn hb; simp [run_batches]
  | cons batch rest ih =>
    intro el dn hb
    rw [List.length_cons, Nat.succ_mul] at hb ⊢
    have hsc : should_continue b el = true := by
      simp only [should_continue, decide_eq_true_eq]
      omega
    have hrec := ih (el + b.batchCost) (dn + 1) (by omega)
    simp only [run_batches, hsc, if_pos, hrec, run_delete_batch_ok_denied faults batch h]
    simp only [List.flatten_cons, List.filter_append, List.map_append, List.map_cons]
    rw [PhaseResult.mk.injEq]
    refine ⟨rfl, rfl, ?_, rfl, by omega, by omega, rfl, ?_⟩
    · refine congrArg₂ (· ++ ·) ?_ rfl
      simp [Function.comp_def]
    · first
      | omega
      | (simp only [List.length_nil, List.length_cons]
         omega)

/-! Lemmas about the execution budget governor. -/

/-- The governor lets a new batch start exactly when at least one more
batch is still permitted. -/
theorem should_continue_iff_permitted (b : Budget) (elapsed : Nat)
    (hc : 0 < b.batchCost) :
    should_continue b elapsed = true ↔ 1 ≤ permitted b elapsed := by
  rw [should_continue, permitted, decide_eq_true_eq, Nat.one_le_div_iff hc]
  omega

/-- Consuming one batch's cost consumes one permitted batch. -/
theorem permitted_step (b : Budget) (elapsed : Nat) (hc : 0 < b.batchCost)
    (h : 1 ≤ permitted b elapsed) :
    permitted b (elapsed + b.batchCost) = permitted b elapsed - 1 := by
  have hx : b.batchCost ≤ b.deadline - b.margin - elapsed := by
    rw [permitted, Nat.one_le_div_iff hc] at h
    exact h
  have key : b.deadline - b.margin - elapsed
      = b.deadline - b.margin - (elapsed + b.batchCost) + b.batchCost := by
    omega
  show (b.deadline - b.margin - (elapsed + b.batchCost)) / b.batchCost
      = (b.deadline - b.margin - elapsed) / b.batchCost - 1
  rw [key, Nat.add_div_right _ hc]
  simp

/-- After `j` batches of constant cost, `j` fewer batches are permitted. -/
theorem permitted_after (b : Budget) (j : Nat) (hc : 0 < b.batchCost)
    (hj : j ≤ permitted b 0) :
    permitted b (j * b.batchCost) = permitted b 0 - j := by
  induction j with
  | zero => simp
  | succ i ih =>
    have hi : i ≤ permitted b 0 := by omega
    have h1 : 1 ≤ permitted b (i * b.batchCost) := by
      rw [ih hi]
      omega
    have h2 : (i + 1) * b.batchCost = i * b.batchCost + b.batchCost :=
      Nat.succ_mul i b.batchCost
    rw [h2, permitted_step b _ hc h1, ih hi]
    omega

/-- The governor's exact accounting for one phase: it performs as many of
the listed batches as the budget permits, halts with `exhausted` exactly
when the budget does not cover them all, and consumes one batch cost per
batch performed. -/
theorem run_batches_governor (faults : String → KeyFault) (b : Budget)
    (p : Phase) (hc : 0 < b.batchCost) :
    ∀ (bs : List (List Entry)) (elapsed done : Nat),
    (run_batches faults b p elapsed done bs).batchesDone
        = done + min bs.length (permitted b elapsed) ∧
    (run_batches faults b p elapsed done bs).exhausted
        = decide (permitted b elapsed < bs.length) ∧
    (run_batches faults b p elapsed done bs).elapsed
        = elapsed + min bs.length (permitted b elapsed) * b.batchCost := by
  intro bs
  induction bs with
  | nil => intro el dn; simp [run_batches]
  | cons batch rest ih =>
    intro el dn
    cases hsc : should_continue b el with
    | true =>
      have hperm : 1 ≤ permitted b el :=
        (should_continue_iff_permitted b el hc).mp hsc
      have hstep := permitted_step b el hc hperm
      obtain ⟨ihd, ihx, ihe⟩ := ih (el + b.batchCost) (dn + 1)
      have hmin : min (batch :: rest).length (permitted b el)
          = min rest.length (permitted b (el + b.batchCost)) + 1 := by
        rw [hstep, List.length_cons]
        omega
      simp only [run_batches, hsc, if_pos]
      refine ⟨?_, ?_, ?_⟩
      · rw [ihd, hmin]
        omega
      · rw [ihx, hstep, List.length_cons]
        rw [decide_eq_decide]
        omega
      · rw [ihe, hmin, Nat.succ_mul]
        omega
    | false =>
      have hperm : permitted b el = 0 := by
        by_contra hne
        have h1 : should_continue b el = true :=
          (should_continue_iff_permitted b el hc).mpr (by omega)
        rw [hsc] at h1
        cases h1
      simp only [run_batches, hsc, Bool.false_eq_true, if_false, hperm,
        List.length_cons, Nat.min_zero]
      refine ⟨by omega, ?_, by omega⟩
      symm
      rw [decide_eq_true_eq]
      omega

/-- Across both phases, the drain performs as many batches as the budget
permits (and no more), and reports the incomplete failure whenever the
permitted count falls short of the batches needed. -/
theorem empty_bucket_governor (faults : String → KeyFault) (b : Budget)
    (bucket : Bucket) (hc : 0 < b.batchCost) (hp : bucket.present = true) :
    (empty_bucket faults b bucket).1.batchesDone
      = min ((chunksPos (maxBatchSize - 1) bucket.versioned).length
          + (chunksPos (maxBatchSize - 1) bucket.plain).length) (permitted b 0) ∧
    (permitted b 0 < (chunksPos (maxBatchSize - 1) bucket.versioned).length
          + (chunksPos (maxBatchSize - 1) bucket.plain).length →
      (empty_bucket faults b bucket).1.status = .failed ∧
      (empty_bucket faults b bucket).1.reason = incompleteReason) := by
  obtain ⟨had, hax, hae⟩ := run_batches_governor faults b .phaseA hc
    (chunksPos (maxBatchSize - 1) bucket.versioned) 0 0
  by_cases hx : permitted b 0 < (chunksPos (maxBatchSize - 1) bucket.versioned).length
  · have hext : (run_batches faults b .phaseA 0 0
        (chunksPos (maxBatchSize - 1) bucket.versioned)).exhausted = true := by
      rw [hax, decide_eq_true_eq]
      exact hx
    simp only [empty_bucket, hp, if_true, hext]
    refine ⟨?_, fun _ => ⟨by trivial, by trivial⟩⟩
    rw [had]
    omega
  · have hext : (run_batches faults b .phaseA 0 0
        (chunksPos (maxBatchSize - 1) bucket.versioned)).exhausted = false := by
      rw [hax]
      simp only [decide_eq_false_iff_not]
      exact hx
    have hminA : min (chunksPos (maxBatchSize - 1) bucket.versioned).length
        (permitted b 0) = (chunksPos (maxBatchSize - 1) bucket.versioned).length := by
      omega
    have haev : (run_batches faults b .phaseA 0 0
        (chunksPos (maxBatchSize - 1) bucket.versioned)).elapsed
        = (chunksPos (maxBatchSize - 1) bucket.versioned).length * b.batchCost := by
      rw [hae, hminA, Nat.zero_add]
    have hperm2 : permitted b
        ((chunksPos (maxBatchSize - 1) bucket.versioned).length * b.batchCost)
        = permitted b 0 - (chunksPos (maxBatchSize - 1) bucket.versioned).length :=
      permitted_after b _ hc (by omega)
    obtain ⟨hbd, hbx, _⟩ := run_batches_governor faults b .phaseB hc
      (chunksPos (maxBatchSize - 1) bucket.plain)
      ((chunksPos (maxBatchSize - 1) bucket.versioned).length * b.batchCost)
      (chunksPos (maxBatchSize - 1) bucket.versioned).length
    have hadv : (run_batches faults b .phaseA 0 0
        (chunksPos (maxBatchSize - 1) bucket.versioned)).batchesDone
        = (chunksPos (maxBatchSize - 1) bucket.versioned).length := by
      rw [had, Nat.zero_add, hminA]
    simp only [empty_bucket, hp, if_true, hext, Bool.false_eq_true, if_false,
      haev, hadv]
    rw [hperm2] at hbd hbx
    constructor
    · rw [hbd]
      omega
    · intro hKB
      have hbxt : (run_batches faults b .phaseB
          ((chunksPos (maxBatchSize - 1) bucket.versioned).length * b.batchCost)
          (chunksPos (maxBatchSize - 1) bucket.versioned).length
          (chunksPos (maxBatchSize - 1) bucket.plain)).exhausted = true := by
        rw [hbx, decide_eq_true_eq]
        omega
      simp only [hbxt, if_true]
      exact ⟨by trivial, by trivial⟩

/-- With no faults at all and a budget covering all the batches, a phase
deletes every listed entry. -/
theorem run_batches_all_ok (faults : String → KeyFault) (b : Budget)
    (p : Phase) (hok : ∀ k, faults k = .ok) :
    ∀ (bs : List (List Entry)) (elapsed done : Nat),
    elapsed + bs.length * b.batchCost + b.margin ≤ b.deadline →
    run_batches faults b p elapsed done bs =
      { deletedEntries := bs.flatten
        failed := []
        remaining := []
        events := bs.map (Event.batch p)
        elapsed := elapsed + bs.length * b.batchCost
        batchesDone := done + bs.length
        exhausted := false
        gatewayCalls := bs.length } := by
  intro bs el dn hb
  rw [run_batches_ok_denied faults b p (fun k => Or.inl (hok k)) bs el dn hb]
  have h1 : bs.flatten.filter (fun e => !(isDenied (faults e.key))) = bs.flatten := by
    apply List.filter_eq_self.mpr
    intro a _
    simp [hok a.key, isDenied]
  have h0 : bs.flatten.filter (fun e => isDenied (faults e.key)) = [] := by
    rw [List.filter_eq_nil_iff]
    intro a _
    simp [hok a.key, isDenied]
  rw [h1, h0]
  simp

/-- Full characterisation of a fault-free, fully-budgeted drain on a
present bucket: both phases run, every entry is deleted exactly once in
enumeration order, and the bucket ends empty. -/
theorem empty_bucket_all_ok (faults : String → KeyFault) (b : Budget)
    (bucket : Bucket) (hok : ∀ k, faults k = .ok) (hp : bucket.present = true)
    (hbudget : ((chunksPos (maxBatchSize - 1) bucket.versioned).length
        + (chunksPos (maxBatchSize - 1) bucket.plain).length) * b.batchCost
        + b.margin ≤ b.deadline) :
    empty_bucket faults b bucket =
      ({ status := .success
         deletedCount := bucket.versioned.length + bucket.plain.length
         deletedEntries := bucket.versioned ++ bucket.plain
         failures := []
         reason := emptiedReason
         events := Event.phaseStart .phaseA
             :: ((chunksPos (maxBatchSize - 1) bucket.versioned).map (Event.batch .phaseA)
           ++ Event.phaseStart .phaseB
             :: (chunksPos (maxBatchSize - 1) bucket.plain).map (Event.batch .phaseB))
         gatewayCalls := (chunksPos (maxBatchSize - 1) bucket.versioned).length
           + (chunksPos (maxBatchSize - 1) bucket.plain).length
         batchesDone := (chunksPos (maxBatchSize - 1) bucket.versioned).length
           + (chunksPos (maxBatchSize - 1) bucket.plain).length },
       { bucket with versioned := [], plain := [] }) := by
  rw [Nat.add_mul] at hbudget
  have hmulA : (chunksPos (maxBatchSize - 1) bucket.versioned).length * b.batchCost
      ≤ (chunksPos (maxBatchSize - 1) bucket.versioned).length * b.batchCost
        + (chunksPos (maxBatchSize - 1) bucket.plain).length * b.batchCost :=
    Nat.le_add_right _ _
  have hA := run_batches_all_ok faults b .phaseA hok
    (chunksPos (maxBatchSize - 1) bucket.versioned) 0 0 (by omega)
  have hB := run_batches_all_ok faults b .phaseB hok
    (chunksPos (maxBatchSize - 1) bucket.plain)
    (0 + (chunksPos (maxBatchSize - 1) bucket.versioned).length * b.batchCost)
    (0 + (chunksPos (maxBatchSize - 1) bucket.versioned).length) (by omega)
  simp only [empty_bucket, hp, if_true, hA, hB, Bool.false_eq_true, if_false,
    List.append_nil, List.nil_append, List.isEmpty_nil, if_true,
    chunksPos_flatten]
  rw [Prod.mk.injEq, DrainResult.mk.injEq]
  refine ⟨⟨rfl, ?_, rfl, rfl, rfl, rfl, by omega, by omega⟩, rfl⟩
  rw [List.length_append]

/-! The claims. -/

/-- C1: for every DrainRequest — every invocation of the drain worker —
exactly one CompletionSignal is sent to the orchestrator, on every exit
path: success, skip, recoverable failure, budget exhaustion, and
unexpected internal exception alike; no fault assignment can cause zero
signals or two signals for one invocation. -/
theorem exactly_one_completion_signal (req : DrainRequest)
    (internalFault : Option String) (faults : String → KeyFault)
    (b : Budget) (bucket : Bucket) :
    (lambda_handler req internalFault faults b bucket).signals.length = 1 := by
  rcases hEB : empty_bucket faults b bucket with ⟨r, b2⟩
  rcases req with ⟨t, i, c⟩
  cases i <;> cases internalFault <;>
    simp [lambda_handler, classify, run_drain, hEB]

/-- C2: request classification is a pure total function of the intent:
`Delete` takes the drain path, `Create` and `Update` take the skip path,
which reports SUCCESS immediately, makes zero gateway calls and leaves the
bucket untouched. -/
theorem classify_skip_path (req : DrainRequest)
    (internalFault : Option String) (faults : String → KeyFault)
    (b : Budget) (bucket : Bucket)
    (h : req.intent = .create ∨ req.intent = .update) :
    classify .delete = .drain ∧ classify .create = .skip ∧
    classify .update = .skip ∧
    (lambda_handler req internalFault faults b bucket).signals
      = [⟨req.corrId, req.target, .success, noActionReason⟩] ∧
    (lambda_handler req internalFault faults b bucket).gatewayCalls = 0 ∧
    (lambda_handler req internalFault faults b bucket).finalBucket = bucket := by
  refine ⟨rfl, rfl, rfl, ?_⟩
  rcases h with h | h <;> simp [lambda_handler, classify, h]

/-- C2 witness: a Create request on a concrete target is skipped with an
immediate SUCCESS and zero gateway calls. -/
theorem classify_skip_path_witness :
    classify .delete = .drain ∧ classify .create = .skip ∧
    classify .update = .skip ∧
    (lambda_handler ⟨"bkt", .create, "cid"⟩ none (fun _ => .ok)
      ⟨900, 10, 1⟩ ⟨true, [], []⟩).signals
      = [⟨"cid", "bkt", .success, noActionReason⟩] ∧
    (lambda_handler ⟨"bkt", .create, "cid"⟩ none (fun _ => .ok)
      ⟨900, 10, 1⟩ ⟨true, [], []⟩).gatewayCalls = 0 ∧
    (lambda_handler ⟨"bkt", .create, "cid"⟩ none (fun _ => .ok)
      ⟨900, 10, 1⟩ ⟨true, [], []⟩).finalBucket = ⟨true, [], []⟩ :=
  classify_skip_path ⟨"bkt", .create, "cid"⟩ none (fun _ => .ok)
    ⟨900, 10, 1⟩ ⟨true, [], []⟩ (Or.inl rfl)

/-- C3: draining a target that does not exist short-circuits at the first
Phase A page: the drain reports SUCCESS with zero deletions, runs neither
phase, leaves the bucket state unchanged, and the handler's single signal
is a SUCCESS echoing the request. -/
theorem absent_target_drain_success (req : DrainRequest)
    (faults : String → KeyFault) (b : Budget) (bucket : Bucket)
    (hi : req.intent = .delete) (hp : bucket.present = false) :
    (empty_bucket faults b bucket).1.status = .success ∧
    (empty_bucket faults b bucket).1.deletedCount = 0 ∧
    (empty_bucket faults b bucket).1.failures = [] ∧
    (empty_bucket faults b bucket).1.events = [] ∧
    (empty_bucket faults b bucket).2 = bucket ∧
    (lambda_handler req none faults b bucket).signals
      = [⟨req.corrId, req.target, .success, absentReason⟩] := by
  have hb : empty_bucket faults b bucket
      = (⟨.success, 0, [], [], absentReason, [], 1, 0⟩, bucket) := by
    simp [empty_bucket, hp]
  refine ⟨by rw [hb], by rw [hb], by rw [hb], by rw [hb], by rw [hb], ?_⟩
  simp [lambda_handler, classify, hi, run_drain, hb]

/-- C3 witness: draining the absent target "gone" succeeds with zero
deletions. -/
theorem absent_target_drain_success_witness :
    (empty_bucket (fun _ => .ok) ⟨900, 10, 1⟩
      ⟨false, [], [⟨"a", none, .plainObject⟩]⟩).1.status = .success ∧
    (empty_bucket (fun _ => .ok) ⟨900, 10, 1⟩
      ⟨false, [], [⟨"a", none, .plainObject⟩]⟩).1.deletedCount = 0 ∧
    (empty_bucket (fun _ => .ok) ⟨900, 10, 1⟩
      ⟨false, [], [⟨"a", none, .plainObject⟩]⟩).1.failures = [] ∧
    (empty_bucket (fun _ => .ok) ⟨900, 10, 1⟩
      ⟨false, [], [⟨"a", none, .plainObject⟩]⟩).1.events = [] ∧
    (empty_bucket (fun _ => .ok) ⟨900, 10, 1⟩
      ⟨false, [], [⟨"a", none, .plainObject⟩]⟩).2
      = ⟨false, [], [⟨"a", none, .plainObject⟩]⟩ ∧
    (lambda_handler ⟨"gone", .delete, "cid3"⟩ none (fun _ => .ok) ⟨900, 10, 1⟩
      ⟨false, [], [⟨"a", none, .plainObject⟩]⟩).signals
      = [⟨"cid3", "gone", .success, absentReason⟩] :=
  absent_target_drain_success ⟨"gone", .delete, "cid3"⟩ (fun _ => .ok)
    ⟨900, 10, 1⟩ ⟨false, [], [⟨"a", none, .plainObject⟩]⟩ rfl rfl

/-- C4: for a target with N versioned entries and M plain objects, a
fault-free drain under sufficient budget deletes exactly N + M entries
across Phase A and Phase B; the enumeration visits every entry exactly
once (the deleted sequence is precisely the target's entries, no
duplicates, no omissions), and the target afterwards holds zero entries. -/
theorem drain_deletes_every_entry (faults : String → KeyFault) (b : Budget)
    (bucket : Bucket) (hok : ∀ k, faults k = .ok) (hp : bucket.present = true)
    (hbudget : ((chunksPos (maxBatchSize - 1) bucket.versioned).length
        + (chunksPos (maxBatchSize - 1) bucket.plain).length) * b.batchCost
        + b.margin ≤ b.deadline) :
    (empty_bucket faults b bucket).1.deletedCount
      = bucket.versioned.length + bucket.plain.length ∧
    (empty_bucket faults b bucket).1.deletedEntries
      = bucket.versioned ++ bucket.plain ∧
    (empty_bucket faults b bucket).1.status = .success ∧
    (empty_bucket faults b bucket).2.versioned = [] ∧
    (empty_bucket faults b bucket).2.plain = [] := by
  rw [empty_bucket_all_ok faults b bucket hok hp hbudget]
  exact ⟨rfl, rfl, rfl, rfl, rfl⟩

/-- C4 witness: a concrete bucket with 2 versioned entries and 3 plain
objects is fully drained: 5 deletions, exact enumeration, empty target. -/
theorem drain_deletes_every_entry_witness :
    (empty_bucket (fun _ => .ok) ⟨900, 10, 1⟩
      ⟨true, [⟨"v", some "1", .objectVersion⟩, ⟨"v", some "2", .deleteMarker⟩],
        [⟨"a", none, .plainObject⟩, ⟨"b", none, .plainObject⟩,
         ⟨"c", none, .plainObject⟩]⟩).1.deletedCount = 2 + 3 ∧
    (empty_bucket (fun _ => .ok) ⟨900, 10, 1⟩
      ⟨true, [⟨"v", some "1", .objectVersion⟩, ⟨"v", some "2", .deleteMarker⟩],
        [⟨"a", none, .plainObject⟩, ⟨"b", none, .plainObject⟩,
         ⟨"c", none, .plainObject⟩]⟩).1.deletedEntries
      = [⟨"v", some "1", .objectVersion⟩, ⟨"v", some "2", .deleteMarker⟩]
        ++ [⟨"a", none, .plainObject⟩, ⟨"b", none, .plainObject⟩,
         ⟨"c", none, .plainObject⟩] ∧
    (empty_bucket (fun _ => .ok) ⟨900, 10, 1⟩
      ⟨true, [⟨"v", some "1", .objectVersion⟩, ⟨"v", some "2", .deleteMarker⟩],
        [⟨"a", none, .plainObject⟩, ⟨"b", none, .plainObject⟩,
         ⟨"c", none, .plainObject⟩]⟩).1.status = .success ∧
    (empty_bucket (fun _ => .ok) ⟨900, 10, 1⟩
      ⟨true, [⟨"v", some "1", .objectVersion⟩, ⟨"v", some "2", .deleteMarker⟩],
        [⟨"a", none, .plainObject⟩, ⟨"b", none, .plainObject⟩,
         ⟨"c", none, .plainObject⟩]⟩).2.versioned = [] ∧
    (empty_bucket (fun _ => .ok) ⟨900, 10, 1⟩
      ⟨true, [⟨"v", some "1", .objectVersion⟩, ⟨"v", some "2", .deleteMarker⟩],
        [⟨"a", none, .plainObject⟩, ⟨"b", none, .plainObject⟩,
         ⟨"c", none, .plainObject⟩]⟩).2.plain = [] :=
  drain_deletes_every_entry (fun _ => .ok) ⟨900, 10, 1⟩
    ⟨true, [⟨"v", some "1", .objectVersion⟩, ⟨"v", some "2", .deleteMarker⟩],
      [⟨"a", none, .plainObject⟩, ⟨"b", none, .plainObject⟩,
       ⟨"c", none, .plainObject⟩]⟩ (fun _ => rfl) rfl (by decide)

/-- A list of Phase B tags satisfies `allB`. -/
theorem allB_of (ps : List Phase) (h : ∀ p ∈ ps, p = .phaseB) :
    allB ps = true := by
  induction ps with
  | nil => rfl
  | cons p r ih =>
    have hp := h p (List.mem_cons_self p r)
    subst hp
    simp only [allB]
    exact ih (fun q hq => h q (List.mem_cons_of_mem _ hq))

/-- Prepending Phase A tags preserves the phase ordering. -/
theorem noAafterB_append_A (ps qs : List Phase)
    (hA : ∀ p ∈ ps, p = .phaseA) (h : noAafterB qs = true) :
    noAafterB (ps ++ qs) = true := by
  induction ps with
  | nil => simpa using h
  | cons p r ih =>
    have hp := hA p (List.mem_cons_self p r)
    subst hp
    simp only [List.cons_append, noAafterB]
    exact ih (fun q hq => hA q (List.mem_cons_of_mem _ hq))

/-- C5: in every drain on a present target whose budget covers Phase A,
all Phase A activity precedes all Phase B activity — the phases are never
interleaved — the run opens with Phase A, and Phase B is entered
unconditionally after Phase A completes, even when Phase A had nothing
left to delete. -/
theorem phase_a_completes_before_phase_b (faults : String → KeyFault)
    (b : Budget) (bucket : Bucket) (hp : bucket.present = true)
    (hc : 0 < b.batchCost)
    (ha : (chunksPos (maxBatchSize - 1) bucket.versioned).length * b.batchCost
        + b.margin ≤ b.deadline) :
    noAafterB (((empty_bucket faults b bucket).1.events).map phaseOf) = true ∧
    ((empty_bucket faults b bucket).1.events).head?
      = some (.phaseStart .phaseA) ∧
    Event.phaseStart .phaseB ∈ (empty_bucket faults b bucket).1.events := by
  obtain ⟨_, hax, _⟩ := run_batches_governor faults b .phaseA hc
    (chunksPos (maxBatchSize - 1) bucket.versioned) 0 0
  have hlenA : (chunksPos (maxBatchSize - 1) bucket.versioned).length
      ≤ permitted b 0 := by
    rw [permitted, Nat.le_div_iff_mul_le hc]
    omega
  have hext : (run_batches faults b .phaseA 0 0
      (chunksPos (maxBatchSize - 1) bucket.versioned)).exhausted = false := by
    rw [hax]
    simp only [decide_eq_false_iff_not]
    omega
  simp only [empty_bucket, hp, if_true, hext, Bool.false_eq_true, if_false]
  refine ⟨?_, rfl, ?_⟩
  · simp only [List.append_eq, List.map_cons, List.map_append, phaseOf, noAafterB]
    apply noAafterB_append_A
    · intro p hp2
      simp only [List.mem_map] at hp2
      obtain ⟨e, he, rfl⟩ := hp2
      obtain ⟨es, rfl⟩ := run_batches_events_phase faults b .phaseA
        (chunksPos (maxBatchSize - 1) bucket.versioned) 0 0 e he
      rfl
    · simp only [noAafterB]
      apply allB_of
      intro p hp2
      simp only [List.mem_map] at hp2
      obtain ⟨e, he, rfl⟩ := hp2
      obtain ⟨es, rfl⟩ := run_batches_events_phase faults b .phaseB
        (chunksPos (maxBatchSize - 1) bucket.plain) _ _ e he
      rfl
  · exact List.mem_cons_of_mem _
      (List.mem_append_right _ (List.mem_cons_self _ _))

/-- C5 witness: on a bucket whose Phase A content is already empty, the
drain still opens Phase A, then enters Phase B unconditionally, in order. -/
theorem phase_a_completes_before_phase_b_witness :
    noAafterB (((empty_bucket (fun _ => .ok) ⟨900, 10, 1⟩
      ⟨true, [], [⟨"a", none, .plainObject⟩]⟩).1.events).map phaseOf) = true ∧
    ((empty_bucket (fun _ => .ok) ⟨900, 10, 1⟩
      ⟨true, [], [⟨"a", none, .plainObject⟩]⟩).1.events).head?
      = some (.phaseStart .phaseA) ∧
    Event.phaseStart .phaseB ∈ (empty_bucket (fun _ => .ok) ⟨900, 10, 1⟩
      ⟨true, [], [⟨"a", none, .plainObject⟩]⟩).1.events :=
  phase_a_completes_before_phase_b (fun _ => .ok) ⟨900, 10, 1⟩
    ⟨true, [], [⟨"a", none, .plainObject⟩]⟩ rfl (by decide) (by decide)

/-- C6: when the deadline permits only K of the N batches needed to drain
the target (K < N), the worker performs exactly K batches, never starts
the (K+1)-th, and reports FAILED with the incomplete (budget exhausted)
reason — never SUCCESS — so the orchestrator can re-invoke it. -/
theorem budget_exhaustion_reports_incomplete (faults : String → KeyFault)
    (b : Budget) (bucket : Bucket)
    (hp : bucket.present = true) (hc : 0 < b.batchCost)
    (hK : permitted b 0 < (chunksPos (maxBatchSize - 1) bucket.versioned).length
        + (chunksPos (maxBatchSize - 1) bucket.plain).length) :
    (empty_bucket faults b bucket).1.batchesDone = permitted b 0 ∧
    (empty_bucket faults b bucket).1.status = .failed ∧
    (empty_bucket faults b bucket).1.reason = incompleteReason := by
  obtain ⟨hbd, himpl⟩ := empty_bucket_governor faults b bucket hc hp
  obtain ⟨hs, hr⟩ := himpl hK
  refine ⟨?_, hs, hr⟩
  rw [hbd]
  omega

/-- C6 witness: a deadline permitting 1 of the 2 batches needed leaves the
drain after exactly 1 batch with the incomplete FAILED report. -/
theorem budget_exhaustion_reports_incomplete_witness :
    (empty_bucket (fun _ => .ok) ⟨1, 0, 1⟩
      ⟨true, [⟨"v", some "1", .objectVersion⟩],
        [⟨"a", none, .plainObject⟩]⟩).1.batchesDone = permitted ⟨1, 0, 1⟩ 0 ∧
    (empty_bucket (fun _ => .ok) ⟨1, 0, 1⟩
      ⟨true, [⟨"v", some "1", .objectVersion⟩],
        [⟨"a", none, .plainObject⟩]⟩).1.status = .failed ∧
    (empty_bucket (fun _ => .ok) ⟨1, 0, 1⟩
      ⟨true, [⟨"v", some "1", .objectVersion⟩],
        [⟨"a", none, .plainObject⟩]⟩).1.reason = incompleteReason :=
  budget_exhaustion_reports_incomplete (fun _ => .ok) ⟨1, 0, 1⟩
    ⟨true, [⟨"v", some "1", .objectVersion⟩], [⟨"a", none, .plainObject⟩]⟩
    rfl (by decide) (by decide)

/-- C7: when bulk deletes report some keys deleted and others
permission-denied, the deleter records the failed keys in the result and
continues deleting all remaining entries rather than aborting: every
non-denied entry is deleted, the failures are exactly the denied entries,
the status is FAILED with a reason citing the failure count, and only the
denied entries remain in the target. -/
theorem partial_failures_accumulate (faults : String → KeyFault) (b : Budget)
    (bucket : Bucket)
    (hod : ∀ k, faults k = .ok ∨ faults k = .permissionDenied)
    (hp : bucket.present = true)
    (hbudget : ((chunksPos (maxBatchSize - 1) bucket.versioned).length
        + (chunksPos (maxBatchSize - 1) bucket.plain).length) * b.batchCost
        + b.margin ≤ b.deadline)
    (hsome : (bucket.versioned ++ bucket.plain).filter
        (fun e => isDenied (faults e.key)) ≠ []) :
    (empty_bucket faults b bucket).1.deletedEntries
      = (bucket.versioned ++ bucket.plain).filter
          (fun e => !(isDenied (faults e.key))) ∧
    (empty_bucket faults b bucket).1.failures
      = ((bucket.versioned ++ bucket.plain).filter
          (fun e => isDenied (faults e.key))).map (fun e => (e, deniedReason)) ∧
    (empty_bucket faults b bucket).1.status = .failed ∧
    (empty_bucket faults b bucket).1.reason
      = failureReason ((bucket.versioned ++ bucket.plain).filter
          (fun e => isDenied (faults e.key))).length ∧
    (empty_bucket faults b bucket).2.versioned
      = bucket.versioned.filter (fun e => isDenied (faults e.key)) ∧
    (empty_bucket faults b bucket).2.plain
      = bucket.plain.filter (fun e => isDenied (faults e.key)) := by
  rw [Nat.add_mul] at hbudget
  have hmulA : (chunksPos (maxBatchSize - 1) bucket.versioned).length * b.batchCost
      ≤ (chunksPos (maxBatchSize - 1) bucket.versioned).length * b.batchCost
        + (chunksPos (maxBatchSize - 1) bucket.plain).length * b.batchCost :=
    Nat.le_add_right _ _
  have hA := run_batches_ok_denied faults b .phaseA hod
    (chunksPos (maxBatchSize - 1) bucket.versioned) 0 0 (by omega)
  have hB := run_batches_ok_denied faults b .phaseB hod
    (chunksPos (maxBatchSize - 1) bucket.plain)
    (0 + (chunksPos (maxBatchSize - 1) bucket.versioned).length * b.batchCost)
    (0 + (chunksPos (maxBatchSize - 1) bucket.versioned).length) (by omega)
  rw [List.filter_append] at hsome
  have hfe : ((bucket.versioned.filter (fun e => isDenied (faults e.key))).map
        (fun e => (e, deniedReason))
      ++ (bucket.plain.filter (fun e => isDenied (faults e.key))).map
        (fun e => (e, deniedReason))).isEmpty = false := by
    rw [← List.map_append]
    cases hq : bucket.versioned.filter (fun e => isDenied (faults e.key))
        ++ bucket.plain.filter (fun e => isDenied (faults e.key)) with
    | nil => exact absurd hq hsome
    | cons a l => simp
  simp only [empty_bucket, hp, if_true, hA, hB, Bool.false_eq_true, if_false,
    chunksPos_flatten, hfe]
  refine ⟨by rw [List.filter_append], by rw [List.filter_append, List.map_append],
    by trivial, ?_, by trivial, by trivial⟩
  rw [List.filter_append]
  simp [List.length_append]

/-- C7 witness: the 2-of-10 scenario — with keys "3" and "7" denied among
ten plain objects, the drain reports FAILED citing 2 failures while the
other 8 entries are deleted. -/
theorem partial_failures_accumulate_witness :
    (empty_bucket w7faults ⟨900, 10, 1⟩ ⟨true, [], mkObjects 10⟩).1.status
      = .failed ∧
    (empty_bucket w7faults ⟨900, 10, 1⟩ ⟨true, [], mkObjects 10⟩).1.reason
      = failureReason 2 ∧
    (empty_bucket w7faults ⟨900, 10, 1⟩
      ⟨true, [], mkObjects 10⟩).1.deletedEntries.length = 8 ∧
    (empty_bucket w7faults ⟨900, 10, 1⟩
      ⟨true, [], mkObjects 10⟩).1.failures.length = 2 := by
  have hod : ∀ k, w7faults k = .ok ∨ w7faults k = .permissionDenied := by
    intro k
    unfold w7faults
    split
    · exact Or.inr rfl
    · exact Or.inl rfl
  obtain ⟨hdel, hfail, hst, hre, _, _⟩ := partial_failures_accumulate w7faults
    ⟨900, 10, 1⟩ ⟨true, [], mkObjects 10⟩ hod rfl (by decide) (by decide)
  refine ⟨hst, ?_, ?_, ?_⟩
  · rw [hre]
    have h2 : (((([] : List Entry) ++ mkObjects 10)).filter
        (fun e => isDenied (w7faults e.key))).length = 2 := by decide
    rw [h2]
  · rw [hdel]
    decide
  · rw [hfail]
    decide

/-- C8: for every batch, transient errors are retried under the bounded
exponential backoff schedule, capped at the fixed attempt limit, and keys
still unresolved at the cap are recorded as failures; permission-denied
keys are never retried — they are issued exactly once and recorded
immediately as terminal per-key failures. -/
theorem retry_policy_bounded_backoff (faults : String → KeyFault)
    (batch : List Entry) (e f : Entry) (n : Nat)
    (he : e ∈ batch) (hde : faults e.key = .permissionDenied)
    (hf : f ∈ batch) (htr : faults f.key = .transient n)
    (hn : maxDeleteAttempts ≤ n) :
    (run_delete_batch faults batch).attempts.length ≤ maxDeleteAttempts ∧
    (run_delete_batch faults batch).delays
      = (List.range ((run_delete_batch faults batch).attempts.length - 1)).map
          backoffDelay ∧
    (e, deniedReason) ∈ (run_delete_batch faults batch).failed ∧
    (run_delete_batch faults batch).attempts.countP
      (fun a => decide (e ∈ a)) = 1 ∧
    (f, exhaustedReason) ∈ (run_delete_batch faults batch).failed := by
  have hd : isDenied (faults e.key) = true := by rw [hde]; rfl
  obtain ⟨h1, h2⟩ := delete_batch_retry_denied faults maxDeleteAttempts 0 batch
    e he hd (by decide)
  refine ⟨delete_batch_retry_attempts_le faults maxDeleteAttempts 0 batch,
    ?_, h1, h2, ?_⟩
  · have hdl := delete_batch_retry_delays faults maxDeleteAttempts 0 batch
    simpa using hdl
  · exact delete_batch_retry_exhausted faults maxDeleteAttempts 0 batch f n
      hf htr (by omega)

/-- C8 witness: in a batch holding a clean key, a permission-denied key
and a persistently throttled key, the denied key fails terminally after a
single issue, the throttled key exhausts the capped exponential backoff
retries, and at most the attempt cap is used. -/
theorem retry_policy_bounded_backoff_witness :
    (run_delete_batch (fun k => if k = "b" then .permissionDenied
        else if k = "c" then .transient 5 else .ok)
      [⟨"a", none, .plainObject⟩, ⟨"b", none, .plainObject⟩,
       ⟨"c", none, .plainObject⟩]).attempts.length ≤ maxDeleteAttempts ∧
    (run_delete_batch (fun k => if k = "b" then .permissionDenied
        else if k = "c" then .transient 5 else .ok)
      [⟨"a", none, .plainObject⟩, ⟨"b", none, .plainObject⟩,
       ⟨"c", none, .plainObject⟩]).delays
      = (List.range ((run_delete_batch (fun k => if k = "b" then .permissionDenied
          else if k = "c" then .transient 5 else .ok)
        [⟨"a", none, .plainObject⟩, ⟨"b", none, .plainObject⟩,
         ⟨"c", none, .plainObject⟩]).attempts.length - 1)).map backoffDelay ∧
    (⟨"b", none, .plainObject⟩, deniedReason)
      ∈ (run_delete_batch (fun k => if k = "b" then .permissionDenied
          else if k = "c" then .transient 5 else .ok)
        [⟨"a", none, .plainObject⟩, ⟨"b", none, .plainObject⟩,
         ⟨"c", none, .plainObject⟩]).failed ∧
    (run_delete_batch (fun k => if k = "b" then .permissionDenied
        else if k = "c" then .transient 5 else .ok)
      [⟨"a", none, .plainObject⟩, ⟨"b", none, .plainObject⟩,
       ⟨"c", none, .plainObject⟩]).attempts.countP
      (fun a => decide (⟨"b", none, .plainObject⟩ ∈ a)) = 1 ∧
    (⟨"c", none, .plainObject⟩, exhaustedReason)
      ∈ (run_delete_batch (fun k => if k = "b" then .permissionDenied
          else if k = "c" then .transient 5 else .ok)
        [⟨"a", none, .plainObject⟩, ⟨"b", none, .plainObject⟩,
         ⟨"c", none, .plainObject⟩]).failed :=
  retry_policy_bounded_backoff
    (fun k => if k = "b" then .permissionDenied
      else if k = "c" then .transient 5 else .ok)
    [⟨"a", none, .plainObject⟩, ⟨"b", none, .plainObject⟩,
     ⟨"c", none, .plainObject⟩]
    ⟨"b", none, .plainObject⟩ ⟨"c", none, .plainObject⟩ 5
    (by decide) (by decide) (by decide) (by decide) (by decide)

/-- Every chunk is a sub-sequence of the chunked list: its entries appear
unchanged. -/
theorem chunksPos_mem_sublist (n : Nat) (xs : List α) (c : List α)
    (hc : c ∈ chunksPos n xs) : c.Sublist xs := by
  have H : ∀ (m : Nat) (ys : List α), ys.length ≤ m → c ∈ chunksPos n ys →
      c.Sublist ys := by
    intro m
    induction m with
    | zero =>
      intro ys h hm
      have hy : ys = [] := List.eq_nil_of_length_eq_zero (by omega)
      subst hy
      simp [chunksPos, chunksF] at hm
    | succ k ih =>
      intro ys h hm
      cases ys with
      | nil => simp [chunksPos, chunksF] at hm
      | cons y ys =>
        rw [chunksPos_cons, List.mem_cons] at hm
        rcases hm with rfl | hm
        · exact List.take_sublist _ _
        · refine (ih _ ?_ hm).trans (List.drop_sublist _ _)
          simp only [List.length_cons] at h
          simp only [List.length_drop, List.length_cons]
          omega
  exact H xs.length xs (le_refl _) hc

/-- `mkObjects n` holds `n` entries. -/
theorem mkObjects_length (n : Nat) : (mkObjects n).length = n := by
  simp [mkObjects]

/-- C9: every DeleteBatch issued to the gateway carries at most 1000
entries (the gateway's maximum bulk-delete size) and is a sub-sequence of
a single phase's entry list — entries keep their version identifiers, no
batch mixes the two kinds of listing — and a target of 2500 plain objects
drains in exactly 3 batches with SUCCESS and 2500 deletions. -/
theorem delete_batches_bounded (faults : String → KeyFault) (b : Budget)
    (bucket : Bucket) (p : Phase) (es : List Entry)
    (hev : Event.batch p es ∈ (empty_bucket faults b bucket).1.events) :
    es.length ≤ maxBatchSize ∧
    (es.Sublist bucket.versioned ∨ es.Sublist bucket.plain) ∧
    (chunksPos (maxBatchSize - 1) (mkObjects 2500)).length = 3 ∧
    (empty_bucket (fun _ => .ok) ⟨3600, 60, 1⟩
      ⟨true, [], mkObjects 2500⟩).1.batchesDone = 3 ∧
    (empty_bucket (fun _ => .ok) ⟨3600, 60, 1⟩
      ⟨true, [], mkObjects 2500⟩).1.status = .success ∧
    (empty_bucket (fun _ => .ok) ⟨3600, 60, 1⟩
      ⟨true, [], mkObjects 2500⟩).1.deletedCount = 2500 := by
  have hnilA : chunksPos (maxBatchSize - 1) ([] : List Entry) = [] := rfl
  have hlen2500 : (chunksPos (maxBatchSize - 1) (mkObjects 2500)).length = 3 := by
    rw [chunksPos_length, mkObjects_length]
    norm_num [maxBatchSize]
  have hbig := empty_bucket_all_ok (fun _ => .ok) ⟨3600, 60, 1⟩
    ⟨true, [], mkObjects 2500⟩ (fun _ => rfl) rfl
    (by dsimp only
        rw [hnilA, hlen2500]
        norm_num)
  have hsz : maxBatchSize - 1 + 1 = maxBatchSize := by decide
  have hcore : es.length ≤ maxBatchSize ∧
      (es.Sublist bucket.versioned ∨ es.Sublist bucket.plain) := by
    cases hpres : bucket.present with
    | false =>
      simp only [empty_bucket, hpres, Bool.false_eq_true, if_false] at hev
      simp at hev
    | true =>
      simp only [empty_bucket, hpres, if_true] at hev
      cases hx : (run_batches faults b .phaseA 0 0
          (chunksPos (maxBatchSize - 1) bucket.versioned)).exhausted with
      | true =>
        simp only [hx, if_true] at hev
        rw [List.mem_cons] at hev
        rcases hev with h | h
        · exact Event.noConfusion h
        · obtain ⟨hmem, _⟩ := run_batches_events_mem faults b .phaseA p _ _ _ es h
          refine ⟨?_, Or.inl (chunksPos_mem_sublist _ _ _ hmem)⟩
          have := (chunksPos_mem_length _ _ _ hmem).2
          omega
      | false =>
        simp only [hx, Bool.false_eq_true, if_false] at hev
        rw [List.mem_append] at hev
        rcases hev with hev | hev
        · rw [List.mem_cons] at hev
          rcases hev with h | h
          · exact Event.noConfusion h
          · obtain ⟨hmem, _⟩ :=
              run_batches_events_mem faults b .phaseA p _ _ _ es h
            refine ⟨?_, Or.inl (chunksPos_mem_sublist _ _ _ hmem)⟩
            have := (chunksPos_mem_length _ _ _ hmem).2
            omega
        · rw [List.mem_cons] at hev
          rcases hev with h | h
          · exact Event.noConfusion h
          · obtain ⟨hmem, _⟩ :=
              run_batches_events_mem faults b .phaseB p _ _ _ es h
            refine ⟨?_, Or.inr (chunksPos_mem_sublist _ _ _ hmem)⟩
            have := (chunksPos_mem_length _ _ _ hmem).2
            omega
  refine ⟨hcore.1, hcore.2, hlen2500, ?_, ?_, ?_⟩
  · simp only [hbig, hnilA, List.length_nil, Nat.zero_add]
    exact hlen2500
  · simp only [hbig]
  · simp only [hbig, List.length_nil, Nat.zero_add]
    exact mkObjects_length 2500

/-- C9 witness: a concrete single-object drain produces a batch event whose
batch is within the bound and drawn from the plain listing, and the
2500-object scenario facts hold. -/
theorem delete_batches_bounded_witness :
    ([⟨"a", none, .plainObject⟩] : List Entry).length ≤ maxBatchSize ∧
    (([⟨"a", none, .plainObject⟩] : List Entry).Sublist
        ([] : List Entry) ∨
      ([⟨"a", none, .plainObject⟩] : List Entry).Sublist
        [⟨"a", none, .plainObject⟩]) ∧
    (chunksPos (maxBatchSize - 1) (mkObjects 2500)).length = 3 ∧
    (empty_bucket (fun _ => .ok) ⟨3600, 60, 1⟩
      ⟨true, [], mkObjects 2500⟩).1.batchesDone = 3 ∧
    (empty_bucket (fun _ => .ok) ⟨3600, 60, 1⟩
      ⟨true, [], mkObjects 2500⟩).1.status = .success ∧
    (empty_bucket (fun _ => .ok) ⟨3600, 60, 1⟩
      ⟨true, [], mkObjects 2500⟩).1.deletedCount = 2500 :=
  delete_batches_bounded (fun _ => .ok) ⟨900, 10, 1⟩
    ⟨true, [], [⟨"a", none, .plainObject⟩]⟩ .phaseB
    [⟨"a", none, .plainObject⟩] (by decide)

/-- C10: the drain worker's hard execution ceiling is the concrete 900
seconds (15 minutes) of the documented `EmptyBucketFunction` timeout; under
a budget whose deadline is that ceiling, the work the governor ever starts
(batches begun times per-batch cost) never exceeds 900 seconds, so the
platform's forcible cut-off at 900 s is never crossed by governed work. -/
theorem execution_ceiling_900_seconds (faults : String → KeyFault)
    (bucket : Bucket) (m c : Nat) (hc : 0 < c) :
    emptyBucketFunctionConfig.timeoutSeconds = 900 ∧
    emptyBucketFunctionConfig.timeoutSeconds = 15 * 60 ∧
    (empty_bucket faults ⟨emptyBucketFunctionConfig.timeoutSeconds, m, c⟩
      bucket).1.batchesDone * c ≤ emptyBucketFunctionConfig.timeoutSeconds := by
  refine ⟨rfl, rfl, ?_⟩
  show (empty_bucket faults ⟨900, m, c⟩ bucket).1.batchesDone * c ≤ 900
  cases hpres : bucket.present with
  | false =>
    simp only [empty_bucket, hpres, Bool.false_eq_true, if_false]
    omega
  | true =>
    obtain ⟨hbd, _⟩ := empty_bucket_governor faults ⟨900, m, c⟩ bucket hc hpres
    rw [hbd]
    have h1 : permitted ⟨900, m, c⟩ 0 * c ≤ 900 := by
      have h2 := Nat.div_mul_le_self (900 - m - 0) c
      simp only [permitted] at h2 ⊢
      omega
    calc min ((chunksPos (maxBatchSize - 1) bucket.versioned).length
          + (chunksPos (maxBatchSize - 1) bucket.plain).length)
          (permitted ⟨900, m, c⟩ 0) * c
        ≤ permitted ⟨900, m, c⟩ 0 * c :=
          Nat.mul_le_mul_right c (Nat.min_le_right _ _)
      _ ≤ 900 := h1

/-- C10 witness: with the documented 900-second ceiling, a 60-second
reporter margin and 1-second batches, a concrete drain's started work
stays within the ceiling. -/
theorem execution_ceiling_900_seconds_witness :
    emptyBucketFunctionConfig.timeoutSeconds = 900 ∧
    emptyBucketFunctionConfig.timeoutSeconds = 15 * 60 ∧
    (empty_bucket (fun _ => .ok)
      ⟨emptyBucketFunctionConfig.timeoutSeconds, 60, 1⟩
      ⟨true, [], [⟨"a", none, .plainObject⟩]⟩).1.batchesDone * 1
      ≤ emptyBucketFunctionConfig.timeoutSeconds :=
  execution_ceiling_900_seconds (fun _ => .ok)
    ⟨true, [], [⟨"a", none, .plainObject⟩]⟩ 60 1 (by decide)

end BucketDrain
